import Mathlib

/-!
Verification of the `bucketize` crate (`src/lib.rs`).

The crate provides a `Bucketizer<T: PartialOrd + Copy>` holding an ordered
`Vec` of buckets `(Option<T>, Option<T>, T)`, with three operations:
`new`, `bucket` (append) and `bucketize` (first-match linear scan).

The Rust code is generic over `PartialOrd`, whose comparisons need not be
total (e.g. `f64` with NaN).  We embed that genericity by passing an
explicit `cmp : T → T → Option Ordering`, the shallow image of
`PartialOrd::partial_cmp`.  Rust's `a >= b` is
`matches!(a.partial_cmp(b), Some(Greater | Equal))` and `a < b` is
`a.partial_cmp(b) == Some(Less)`; `pge` and `plt` below embed exactly those.
-/

/-- A bucket, as in `type Bucket<T> = (Option<T>, Option<T>, T);`:
lower bound, upper bound (each optional) and the output value. -/
abbrev Bucket (T : Type) := Option T × Option T × T

/-- The `Bucketizer` struct: its only field is the ordered list of buckets. -/
structure Bucketizer (T : Type) where
  buckets : List (Bucket T)
deriving DecidableEq

/-- Embedding of `PartialOrd::ge`: `partial_cmp` returns `Greater` or `Equal`. -/
def pge {T : Type} (cmp : T → T → Option Ordering) (a b : T) : Bool :=
  match cmp a b with
  | some Ordering.gt => true
  | some Ordering.eq => true
  | _ => false

/-- Embedding of `PartialOrd::lt`: `partial_cmp` returns `Less`. -/
def plt {T : Type} (cmp : T → T → Option Ordering) (a b : T) : Bool :=
  match cmp a b with
  | some Ordering.lt => true
  | _ => false

/-- `Bucketizer::new()`: a classifier with no buckets configured. -/
def Bucketizer.new {T : Type} : Bucketizer T := ⟨[]⟩

/-- `Bucketizer::bucket(self, min, max, value)`: push the new bucket onto the
end of `buckets` and return the bucketizer. -/
def Bucketizer.bucket {T : Type} (self : Bucketizer T)
    (min max : Option T) (value : T) : Bucketizer T :=
  ⟨self.buckets ++ [(min, max, value)]⟩

/-- The scan loop of `Bucketizer::bucketize`, translated case by case from the
`match *bucket` in the source: first matching bucket's value, else recurse;
`none` when the list is exhausted. -/
def bucketizeGo {T : Type} (cmp : T → T → Option Ordering) (input : T) :
    List (Bucket T) → Option T
  | [] => none
  | (none, none, val) :: _ => some val
  | (some min, none, val) :: rest =>
      if pge cmp input min then some val else bucketizeGo cmp input rest
  | (none, some max, val) :: rest =>
      if plt cmp input max then some val else bucketizeGo cmp input rest
  | (some min, some max, val) :: rest =>
      if pge cmp input min && plt cmp input max then some val
      else bucketizeGo cmp input rest

/-- `Bucketizer::bucketize(&self, input)`. -/
def Bucketizer.bucketize {T : Type} (self : Bucketizer T)
    (cmp : T → T → Option Ordering) (input : T) : Option T :=
  bucketizeGo cmp input self.buckets

/-- The match rule exactly as the specification's table states it
(spec section 4.1): absent/absent matches always, present/absent means
`input >= lo`, absent/present means `input < hi`, present/present means
`input >= lo AND input < hi`.  This definition follows the spec's words and
is compared against the source-derived `bucketizeGo` in the theorems. -/
def specMatchRule {T : Type} (cmp : T → T → Option Ordering) (input : T) :
    Bucket T → Bool
  | (none, none, _) => true
  | (some lo, none, _) => pge cmp input lo
  | (none, some hi, _) => plt cmp input hi
  | (some lo, some hi, _) => pge cmp input lo && plt cmp input hi

/-- A concrete totally ordered instantiation (`T = Int`), whose `partial_cmp`
always succeeds, as for Rust's integer types. -/
def intCmp (a b : Int) : Option Ordering :=
  some (if a < b then Ordering.lt else if a = b then Ordering.eq else Ordering.gt)

/-- A model of a floating-point type: either NaN or a finite value.
Only the ordering behaviour matters for the claims, so finite values are
modelled by integers. -/
inductive FloatM where
  | nan : FloatM
  | fin : Int → FloatM
deriving DecidableEq

/-- `partial_cmp` for the floating-point model: comparisons involving NaN
yield `None`, finite values compare as their underlying numbers. -/
def fcmp : FloatM → FloatM → Option Ordering
  | FloatM.nan, _ => none
  | _, FloatM.nan => none
  | FloatM.fin a, FloatM.fin b => intCmp a b

theorem intCmp_pge_iff (a b : Int) : pge intCmp a b = true ↔ b ≤ a := by
  simp only [pge, intCmp]
  split_ifs with h1 h2 <;> simp <;> omega

theorem intCmp_plt_iff (a b : Int) : plt intCmp a b = true ↔ a < b := by
  simp only [plt, intCmp]
  split_ifs with h1 h2 <;> simp <;> omega

theorem pge_fcmp_nan (v : FloatM) : pge fcmp FloatM.nan v = false := by
  cases v <;> rfl

theorem plt_fcmp_nan (v : FloatM) : plt fcmp FloatM.nan v = false := by
  cases v <;> rfl

/-- The scan loop agrees, bucket by bucket, with the spec's match rule:
it returns the value of the first bucket satisfying `specMatchRule`. -/
theorem bucketizeGo_eq_find {T : Type} (cmp : T → T → Option Ordering)
    (input : T) :
    ∀ l : List (Bucket T),
      bucketizeGo cmp input l
        = (l.find? (specMatchRule cmp input)).map (fun b => b.2.2)
  | [] => rfl
  | (mn, mx, val) :: rest => by
    have ih := bucketizeGo_eq_find cmp input rest
    rcases mn with _ | lo <;> rcases mx with _ | hi
    · simp [bucketizeGo, specMatchRule, List.find?_cons_of_pos]
    · by_cases h : plt cmp input hi = true <;>
        simp [bucketizeGo, specMatchRule, h, List.find?_cons_of_pos,
          List.find?_cons_of_neg, ih]
    · by_cases h : pge cmp input lo = true <;>
        simp [bucketizeGo, specMatchRule, h, List.find?_cons_of_pos,
          List.find?_cons_of_neg, ih]
    · by_cases h : (pge cmp input lo && plt cmp input hi) = true <;>
        simp [bucketizeGo, specMatchRule, h, List.find?_cons_of_pos,
          List.find?_cons_of_neg, ih]

/-- The scan distributes over list append: the result on `l1 ++ l2` is the
result on `l1` when that is `some`, and the result on `l2` otherwise. -/
theorem bucketizeGo_append {T : Type} (cmp : T → T → Option Ordering) (x : T)
    (l1 l2 : List (Bucket T)) :
    bucketizeGo cmp x (l1 ++ l2)
      = (bucketizeGo cmp x l1).or (bucketizeGo cmp x l2) := by
  induction l1 with
  | nil => simp [bucketizeGo, Option.or]
  | cons bkt rest ih =>
    rcases bkt with ⟨mn, mx, val⟩
    rcases mn with _ | lo <;> rcases mx with _ | hi <;>
      simp only [List.cons_append, bucketizeGo] <;>
      first
        | rfl
        | (split <;> simp [ih, Option.or])

/-- C1: `bucketize` scans the bucket sequence in insertion order and returns
`some` of the output value of the first bucket whose bounds satisfy the match
rule; if no bucket in the sequence matches, it returns the absent value
`none`. -/
theorem bucketize_first_match {T : Type} (cmp : T → T → Option Ordering)
    (b : Bucketizer T) (input : T) :
    b.bucketize cmp input
      = (b.buckets.find? (specMatchRule cmp input)).map (fun bk => bk.2.2) :=
  bucketizeGo_eq_find cmp input b.buckets

/-- C2: the per-bucket match decision of `bucketize` is exactly the spec's
table: both bounds absent matches always; `lo` present and `hi` absent
matches iff `input >= lo`; `lo` absent and `hi` present matches iff
`input < hi`; both present matches iff `input >= lo` and `input < hi`
(half-open interval, inclusive lower and exclusive upper bound). -/
theorem bucketize_match_rule {T : Type}
    (cmp : T → T → Option Ordering) (lo hi : Option T) (val input : T) :
    ((Bucketizer.new.bucket lo hi val).bucketize cmp input = some val) ↔
      (match lo, hi with
       | none, none => True
       | some l, none => pge cmp input l = true
       | none, some h => plt cmp input h = true
       | some l, some h => pge cmp input l = true ∧ plt cmp input h = true) := by
  rcases lo with _ | l <;> rcases hi with _ | h <;>
    simp [Bucketizer.new, Bucketizer.bucket, Bucketizer.bucketize, bucketizeGo]

/-- C4: the append operation returns the classifier whose bucket sequence is
the previous sequence with the new bucket at the end; `buckets` is the whole
state, so nothing else changes. -/
theorem bucket_appends {T : Type} (c : Bucketizer T) (lo hi : Option T)
    (v : T) :
    c.bucket lo hi v = Bucketizer.mk (c.buckets ++ [(lo, hi, v)]) :=
  rfl

/-- C7: classify on a classifier with zero buckets, as produced by `new`,
returns the absent value for every input. -/
theorem bucketize_new_eq_none {T : Type} (cmp : T → T → Option Ordering)
    (x : T) :
    (Bucketizer.new : Bucketizer T).bucketize cmp x = none :=
  rfl

theorem intCmp_pge_trans :
    ∀ a b c : Int, pge intCmp a b = true → pge intCmp b c = true →
      pge intCmp a c = true := by
  intro a b c hab hbc
  rw [intCmp_pge_iff] at hab hbc ⊢
  omega

theorem intCmp_pge_excl :
    ∀ a b : Int, pge intCmp a b = true → plt intCmp a b = false := by
  intro a b h
  rw [intCmp_pge_iff] at h
  cases hb : plt intCmp a b with
  | false => rfl
  | true =>
    have := (intCmp_plt_iff a b).mp hb
    omega

/-- C8: classify always yields a well-defined present/absent result: `some`
exactly when some configured bucket matches, `none` otherwise.  The source
contains no indexing, unwrapping or arithmetic that could abort, which the
embedding reflects: every operation is a total function. -/
theorem bucketize_isSome_iff_any {T : Type} (cmp : T → T → Option Ordering)
    (b : Bucketizer T) (x : T) :
    (b.bucketize cmp x).isSome = b.buckets.any (specMatchRule cmp x) := by
  show (bucketizeGo cmp x b.buckets).isSome = _
  rw [bucketizeGo_eq_find]
  induction b.buckets with
  | nil => rfl
  | cons bkt rest ih =>
    by_cases h : specMatchRule cmp x bkt = true
    · simp [List.find?_cons_of_pos _ h, List.any_cons, h]
    · have h2 : specMatchRule cmp x bkt = false := by
        simpa using h
      simp [List.find?_cons_of_neg, h2, List.any_cons, ih]

/-- C9: appending a bucket never changes an already-established
classification: when `bucketize` returns `some v`, appending any further
bucket leaves the result `some v`. -/
theorem bucketize_bucket_preserves_some {T : Type}
    (cmp : T → T → Option Ordering) (c : Bucketizer T) (lo hi : Option T)
    (w x v : T) (h : c.bucketize cmp x = some v) :
    (c.bucket lo hi w).bucketize cmp x = some v := by
  show bucketizeGo cmp x (c.buckets ++ [(lo, hi, w)]) = some v
  rw [bucketizeGo_append]
  have h2 : bucketizeGo cmp x c.buckets = some v := h
  rw [h2]
  rfl

/-- Witness for C9 at a concrete classifier: `[0,10) ↦ 1` classifies `5` as
`1`, and still does after appending `[0,100) ↦ 2`. -/
theorem bucketize_bucket_preserves_some_witness :
    (Bucketizer.mk [((some 0 : Option Int), some 10, 1)]).bucketize intCmp 5
        = some 1
      ∧ ((Bucketizer.mk [((some 0 : Option Int), some 10, 1)]).bucket
          (some 0) (some 100) 2).bucketize intCmp 5 = some 1 :=
  ⟨by decide,
   bucketize_bucket_preserves_some intCmp _ (some 0) (some 100) 2 5 1
     (by decide)⟩

/-- C10: if the first bucket of the sequence has both bounds absent, classify
returns that bucket's output value for every input, without performing any
comparison. -/
theorem bucketize_head_catchall {T : Type} (cmp : T → T → Option Ordering)
    (b : Bucketizer T) (val : T) (rest : List (Bucket T))
    (h : b.buckets = (none, none, val) :: rest) (x : T) :
    b.bucketize cmp x = some val := by
  show bucketizeGo cmp x b.buckets = some val
  rw [h, bucketizeGo]

/-- Witness for C10 on the floating-point model at input NaN: the catch-all
bucket claims even NaN, an input that compares false against every value. -/
theorem bucketize_head_catchall_witness :
    (Bucketizer.new.bucket none none (FloatM.fin 1)).buckets
        = (none, none, FloatM.fin 1) :: []
      ∧ (Bucketizer.new.bucket none none (FloatM.fin 1)).bucketize fcmp
          FloatM.nan = some (FloatM.fin 1) :=
  ⟨rfl, bucketize_head_catchall fcmp _ (FloatM.fin 1) [] rfl FloatM.nan⟩

/-- C3 counterexample: the claim, as stated, applies to every bucket with
both bounds present, including the dead bucket `[5, 3)`; there `classify(5)`
has no earlier bucket to defeat it, yet the code returns `none` rather than
the bucket's output `9`, because `5 < 3` is false. -/
theorem boundary_lo_counterexample :
    (Bucketizer.new.bucket (some (5 : Int)) (some 3) 9).bucketize intCmp 5
      ≠ some 9 := by
  decide

/-- C3 (amended): for a bucket with both bounds present that is nonempty
(`lo < hi`) and whose endpoints compare sanely (`lo >= lo` holds and
`hi < hi` fails, as for every numeric order): `classify(lo)` matches this
bucket whenever no earlier bucket matches `lo`, and `classify(hi)` never
matches this bucket — the result at `hi` is exactly that of the classifier
with this bucket removed. -/
theorem boundary_exactness {T : Type} (cmp : T → T → Option Ordering)
    (pre post : List (Bucket T)) (lo hi val : T)
    (hlo : pge cmp lo lo = true)
    (hne : plt cmp lo hi = true)
    (hhi : plt cmp hi hi = false)
    (hpre : ∀ bkt ∈ pre, specMatchRule cmp lo bkt = false) :
    (Bucketizer.mk (pre ++ (some lo, some hi, val) :: post)).bucketize cmp lo
        = some val
      ∧ (Bucketizer.mk (pre ++ (some lo, some hi, val) :: post)).bucketize
          cmp hi
        = (Bucketizer.mk (pre ++ post)).bucketize cmp hi := by
  constructor
  · show bucketizeGo cmp lo (pre ++ (some lo, some hi, val) :: post) = some val
    have hpre_none : bucketizeGo cmp lo pre = none := by
      rw [bucketizeGo_eq_find,
        List.find?_eq_none.mpr (fun a ha => by simp [hpre a ha])]
      rfl
    rw [bucketizeGo_append, hpre_none]
    simp [bucketizeGo, hlo, hne, Option.or]
  · show bucketizeGo cmp hi (pre ++ (some lo, some hi, val) :: post)
        = bucketizeGo cmp hi (pre ++ post)
    have hskip : bucketizeGo cmp hi ((some lo, some hi, val) :: post)
        = bucketizeGo cmp hi post := by
      simp [bucketizeGo, hhi]
    rw [bucketizeGo_append, bucketizeGo_append, hskip]

/-- Witness for the amended C3: classifier `[100,∞) ↦ 7` then `[2,4) ↦ 9`;
`classify(2)` lands in the second bucket and `classify(4)` behaves as if that
bucket were absent. -/
theorem boundary_exactness_witness :
    (Bucketizer.mk ([((some 100 : Option Int), none, 7)]
        ++ (some 2, some 4, 9) :: [])).bucketize intCmp 2 = some 9
      ∧ (Bucketizer.mk ([((some 100 : Option Int), none, 7)]
          ++ (some 2, some 4, 9) :: [])).bucketize intCmp 4
        = (Bucketizer.mk ([((some 100 : Option Int), none, 7)]
            ++ [])).bucketize intCmp 4 :=
  boundary_exactness intCmp [((some 100 : Option Int), none, 7)] [] 2 4 9
    (by decide) (by decide) (by decide) (by decide)

/-- C5: a bucket with both bounds present and `lowerBound >= upperBound`
satisfies the match rule for no input (given that `>=` is transitive and
excludes `<`, as for every numeric order), and removing it from anywhere in
a classifier changes no classification: it is dead configuration, accepted
silently. -/
theorem dead_bucket_never_matches {T : Type} (cmp : T → T → Option Ordering)
    (lo hi val : T)
    (hdead : pge cmp lo hi = true)
    (htrans : ∀ a b c, pge cmp a b = true → pge cmp b c = true →
      pge cmp a c = true)
    (hexcl : ∀ a b, pge cmp a b = true → plt cmp a b = false)
    (x : T) (pre post : List (Bucket T)) :
    specMatchRule cmp x (some lo, some hi, val) = false
      ∧ (Bucketizer.mk (pre ++ (some lo, some hi, val) :: post)).bucketize
          cmp x
        = (Bucketizer.mk (pre ++ post)).bucketize cmp x := by
  have hmatch : specMatchRule cmp x (some lo, some hi, val) = false := by
    show (pge cmp x lo && plt cmp x hi) = false
    cases hx : pge cmp x lo with
    | false => simp
    | true =>
      have hxhi : pge cmp x hi = true := htrans x lo hi hx hdead
      simp [hexcl x hi hxhi]
  refine ⟨hmatch, ?_⟩
  show bucketizeGo cmp x (pre ++ (some lo, some hi, val) :: post)
      = bucketizeGo cmp x (pre ++ post)
  have hskip : bucketizeGo cmp x ((some lo, some hi, val) :: post)
      = bucketizeGo cmp x post := by
    have hb : (pge cmp x lo && plt cmp x hi) = false := hmatch
    simp [bucketizeGo, hb]
  rw [bucketizeGo_append, bucketizeGo_append, hskip]

/-- Witness for C5: the dead bucket `[5, 3) ↦ 9` placed ahead of
`[0, 10) ↦ 1` matches nothing and does not change `classify(4)`. -/
theorem dead_bucket_never_matches_witness :
    specMatchRule intCmp 4 (some (5 : Int), some 3, 9) = false
      ∧ (Bucketizer.mk ([] ++ (some (5 : Int), some 3, 9)
          :: [(some 0, some 10, 1)])).bucketize intCmp 4
        = (Bucketizer.mk ([]
            ++ [((some 0 : Option Int), some 10, 1)])).bucketize intCmp 4 :=
  dead_bucket_never_matches intCmp 5 3 9 (by decide) intCmp_pge_trans
    intCmp_pge_excl 4 [] [(some 0, some 10, 1)]

/-- C6 counterexample: a floating-point classifier whose only bucket has both
bounds absent returns `some` on NaN input, not the absent value: the
both-absent case matches without performing any comparison. -/
theorem bucketize_nan_counterexample :
    (Bucketizer.new.bucket none none (FloatM.fin 1)).bucketize fcmp FloatM.nan
      ≠ none := by
  decide

/-- Helper for the amended C6: on the floating-point model, the scan skips
every bucket that has at least one bound present when the input is NaN,
because every comparison against NaN evaluates false. -/
theorem bucketizeGo_nan :
    ∀ l : List (Bucket FloatM),
      (∀ bkt ∈ l, bkt.1 ≠ none ∨ bkt.2.1 ≠ none) →
      bucketizeGo fcmp FloatM.nan l = none
  | [], _ => rfl
  | (mn, mx, val) :: rest, h => by
    have ih := bucketizeGo_nan rest
      (fun bkt hb => h bkt (List.mem_cons_of_mem _ hb))
    have hhead := h (mn, mx, val) (List.mem_cons_self _ _)
    rcases mn with _ | lo <;> rcases mx with _ | hi
    · simp at hhead
    · simp [bucketizeGo, plt_fcmp_nan, ih]
    · simp [bucketizeGo, pge_fcmp_nan, ih]
    · simp [bucketizeGo, pge_fcmp_nan, ih]

/-- C6 (amended): for every floating-point classifier in which each bucket
has at least one bound present, classify applied to NaN matches no bucket
and returns the absent value, because every ordering comparison against NaN
evaluates false. -/
theorem bucketize_nan_eq_none (b : Bucketizer FloatM)
    (h : ∀ bkt ∈ b.buckets, bkt.1 ≠ none ∨ bkt.2.1 ≠ none) :
    b.bucketize fcmp FloatM.nan = none :=
  bucketizeGo_nan b.buckets h

/-- Witness for the amended C6: NaN falls through a two-bucket classifier
with bounded buckets. -/
theorem bucketize_nan_eq_none_witness :
    ((Bucketizer.new.bucket (some (FloatM.fin 0)) none (FloatM.fin 1)).bucket
        none (some (FloatM.fin 5)) (FloatM.fin 2)).bucketize fcmp FloatM.nan
      = none :=
  bucketize_nan_eq_none _ (by decide)
